import Mathlib

/-!
Shallow embedding of the signal → backtest → metrics pipeline.

Series are modelled as `List ℚ` (bar closes, positions) and
`List (Option ℚ)` for derived columns, where `none` stands for a
pandas NaN cell.  The backtester (`src/utils/backtester.py`) and the
strategies (`src/strategies/*.py`) are translated column by column;
the metrics module (`src/utils/metrics.py`) is translated over `ℝ`
because its formulas take square roots.
-/

/-- A derived pandas column: `none` is a NaN cell. -/
abbrev OSeries := List (Option ℚ)

/-- `Series.pct_change()`: NaN at index 0, then `c[t]/c[t-1] - 1`.
A zero previous close (float `inf`) is modelled as `none`. -/
def pctChange (c : List ℚ) : OSeries :=
  match c with
  | [] => []
  | _ :: _ =>
      none :: List.zipWith (fun a b => if a = 0 then none else some (b / a - 1)) c c.tail

/-- `Series.shift(1)`: NaN at index 0, then the previous value. -/
def shift1 (p : List ℚ) : OSeries :=
  match p with
  | [] => []
  | _ :: _ => none :: List.zipWith (fun a _ => some a) p p.tail

/-- Float multiplication where NaN (`none`) absorbs. -/
def optMul : Option ℚ → Option ℚ → Option ℚ
  | some a, some b => some (a * b)
  | _, _ => none

/-- `Strategy_Returns = Position.shift(1) * Returns` (backtester.py line 50). -/
def strategyReturns (closes pos : List ℚ) : OSeries :=
  List.zipWith optMul (shift1 pos) (pctChange closes)

/-- Running product of a column with NaN cells, pandas `cumprod`
semantics (`skipna=True`): NaN cells stay NaN and are skipped by the
accumulator. -/
def cumprodGo (acc : ℚ) : OSeries → OSeries
  | [] => []
  | none :: rest => none :: cumprodGo acc rest
  | some x :: rest => some (acc * x) :: cumprodGo (acc * x) rest

/-- `Series.cumprod()` on a column with NaN cells. -/
def cumprodSkipna (xs : OSeries) : OSeries := cumprodGo 1 xs

/-- `1 + column`, NaN preserved. -/
def onePlus (xs : OSeries) : OSeries := xs.map (Option.map (fun r => 1 + r))

/-- `Cumulative_Strategy_Returns = (1 + Strategy_Returns).cumprod()`. -/
def cumulativeStrategyReturns (closes pos : List ℚ) : OSeries :=
  cumprodSkipna (onePlus (strategyReturns closes pos))

/-- `Cumulative_Returns = (1 + Returns).cumprod()`. -/
def cumulativeReturns (closes : List ℚ) : OSeries :=
  cumprodSkipna (onePlus (pctChange closes))

/-- The columns of `Backtester.run` that the analysed properties use. -/
structure RunResult where
  rets : OSeries
  strategyRets : OSeries
  cumRets : OSeries
  cumStrategyRets : OSeries
  portfolioValue : OSeries
  buyHold : OSeries

/-- `Backtester.run` (backtester.py lines 29–67): the strategy's
`Position` column is passed in as `pos`.  `__init__` performs no
validation of `initial_capital`.  The drawdown columns are not
needed by any analysed property and are omitted. -/
def Backtester.run (closes pos : List ℚ) (initialCapital : ℚ) : RunResult :=
  { rets := pctChange closes
    strategyRets := strategyReturns closes pos
    cumRets := cumulativeReturns closes
    cumStrategyRets := cumulativeStrategyReturns closes pos
    portfolioValue := (cumulativeStrategyReturns closes pos).map (Option.map (fun x => initialCapital * x))
    buyHold := (cumulativeReturns closes).map (Option.map (fun x => initialCapital * x)) }

/-- `BuyHoldStrategy.generate_signals`: `Position = 1` on every bar. -/
def BuyHoldStrategy.generateSignals (closes : List ℚ) : List ℚ :=
  closes.map (fun _ => 1)

-- length lemmas

theorem length_pctChange (c : List ℚ) : (pctChange c).length = c.length := by
  cases c with
  | nil => rfl
  | cons a l => simp [pctChange]

theorem length_shift1 (p : List ℚ) : (shift1 p).length = p.length := by
  cases p with
  | nil => rfl
  | cons a l => simp [shift1]

theorem length_strategyReturns (closes pos : List ℚ) (h : pos.length = closes.length) :
    (strategyReturns closes pos).length = closes.length := by
  simp [strategyReturns, length_shift1, length_pctChange, h]

theorem length_cumprodGo (acc : ℚ) (xs : OSeries) :
    (cumprodGo acc xs).length = xs.length := by
  induction xs generalizing acc with
  | nil => rfl
  | cons x rest ih =>
      cases x with
      | none => simp [cumprodGo, ih]
      | some v => simp [cumprodGo, ih]

theorem length_onePlus (xs : OSeries) : (onePlus xs).length = xs.length := by
  simp [onePlus]

theorem length_cumulativeStrategyReturns (closes pos : List ℚ)
    (h : pos.length = closes.length) :
    (cumulativeStrategyReturns closes pos).length = closes.length := by
  simp [cumulativeStrategyReturns, cumprodSkipna, length_cumprodGo, length_onePlus,
    length_strategyReturns closes pos h]

-- indexed access lemmas

theorem getD_eq_get {α : Type} (l : List α) (d : α) (i : Nat) (h : i < l.length) :
    l.getD i d = l.get ⟨i, h⟩ := by
  simp [List.getD_eq_getElem?_getD, List.getElem?_eq_getElem h]

theorem pctChange_getD (c : List ℚ) (s : Nat) (h : s + 1 < c.length)
    (hz : c.getD s 0 ≠ 0) :
    (pctChange c).getD (s + 1) none = some (c.getD (s + 1) 0 / c.getD s 0 - 1) := by
  cases c with
  | nil => simp at h
  | cons a l =>
    have hs : s < l.length := by simp at h; omega
    have hz' : (a :: l).getD s 0 ≠ 0 := hz
    rw [getD_eq_get _ _ _ (by omega : s < (a :: l).length)] at hz'
    have hzw : s < (List.zipWith (fun a b => if a = 0 then none else some (b / a - 1)) (a :: l) l).length := by
      simp; omega
    show (none :: List.zipWith _ (a :: l) l).getD (s + 1) none = _
    rw [List.getD_cons_succ, getD_eq_get _ _ _ hzw,
        getD_eq_get _ _ _ h, getD_eq_get _ _ _ (by omega : s < (a :: l).length)]
    simp only [List.get_eq_getElem, List.getElem_zipWith]
    have hcs : (a :: l)[s + 1] = l[s] := by
      simp
    rw [if_neg (by simpa using hz'), hcs]

theorem shift1_getD (p : List ℚ) (s : Nat) (h : s + 1 < p.length) :
    (shift1 p).getD (s + 1) none = some (p.getD s 0) := by
  cases p with
  | nil => simp at h
  | cons a l =>
    have hs : s < l.length := by simp at h; omega
    have hzw : s < (List.zipWith (fun a _ => some a) (a :: l) l).length := by
      simp; omega
    show (none :: List.zipWith _ (a :: l) l).getD (s + 1) none = _
    rw [List.getD_cons_succ, getD_eq_get _ _ _ hzw, getD_eq_get _ _ _ (by omega : s < (a :: l).length)]
    simp only [List.get_eq_getElem, List.getElem_zipWith]

theorem strategyReturns_getD (closes pos : List ℚ) (s : Nat)
    (h : s + 1 < closes.length) (hlen : pos.length = closes.length)
    (hz : closes.getD s 0 ≠ 0) :
    (strategyReturns closes pos).getD (s + 1) none
      = some (pos.getD s 0 * (closes.getD (s + 1) 0 / closes.getD s 0 - 1)) := by
  have hzw : s + 1 < (List.zipWith optMul (shift1 pos) (pctChange closes)).length := by
    simp [length_shift1, length_pctChange, hlen]; omega
  have h1 : s + 1 < (shift1 pos).length := by rw [length_shift1]; omega
  have h2 : s + 1 < (pctChange closes).length := by rw [length_pctChange]; omega
  show (List.zipWith optMul (shift1 pos) (pctChange closes)).getD (s + 1) none = _
  rw [getD_eq_get _ _ _ hzw]
  simp only [List.get_eq_getElem, List.getElem_zipWith]
  have e1 : (shift1 pos)[s + 1] = some (pos.getD s 0) := by
    rw [← shift1_getD pos s (by omega), getD_eq_get _ _ _ h1]
    simp
  have e2 : (pctChange closes)[s + 1] = some (closes.getD (s + 1) 0 / closes.getD s 0 - 1) := by
    rw [← pctChange_getD closes s h hz, getD_eq_get _ _ _ h2]
    simp
  rw [e1, e2]
  rfl

/-- Claim C1: for equal-length bar and position series with nonzero closes,
`Strategy_Returns[t] = Position[t-1] * (Close[t]/Close[t-1] - 1)` at every
index `t ≥ 1` — the one-period lag of `Position.shift(1) * Returns`. -/
theorem strategy_returns_one_period_lag (closes pos : List ℚ) (t : Nat)
    (ht : 1 ≤ t) (hlt : t < closes.length) (hlen : pos.length = closes.length)
    (hz : ∀ x ∈ closes, x ≠ 0) :
    (strategyReturns closes pos).getD t none
      = some (pos.getD (t - 1) 0 * (closes.getD t 0 / closes.getD (t - 1) 0 - 1)) := by
  obtain ⟨s, rfl⟩ : ∃ s, t = s + 1 := ⟨t - 1, by omega⟩
  have hs : s < closes.length := by omega
  have hz' : closes.getD s 0 ≠ 0 := by
    rw [getD_eq_get _ _ _ hs]
    exact hz _ (List.get_mem closes _ hs)
  simpa using strategyReturns_getD closes pos s hlt hlen hz'

/-- Witness for C1 at `Close = [100, 110]`, `Position = [3, 7]`, `t = 1`. -/
theorem strategy_returns_one_period_lag_w :
    (strategyReturns [100, 110] [3, 7]).getD 1 none
      = some (([3, 7] : List ℚ).getD 0 0
          * (([100, 110] : List ℚ).getD 1 0 / ([100, 110] : List ℚ).getD 0 0 - 1)) :=
  strategy_returns_one_period_lag [100, 110] [3, 7] 1 (by omega) (by simp) (by simp) (by decide)

/-- Claim C3: `Strategy_Returns` at index 0 is NaN (`none`) for every
position series (so in particular regardless of `P[0]`), and the NaN is
treated as a zero return downstream: the cumulative strategy returns
from index 1 on are exactly those obtained by replacing the first
strategy return with `some 0`. -/
theorem strategy_returns_first_bar_nan_skipped (closes pos : List ℚ)
    (hc : closes ≠ []) (hp : pos ≠ []) :
    (strategyReturns closes pos).getD 0 none = none ∧
    (cumulativeStrategyReturns closes pos).tail
      = (cumprodSkipna (onePlus (some 0 :: (strategyReturns closes pos).tail))).tail := by
  obtain ⟨a, cl, rfl⟩ := List.exists_cons_of_ne_nil hc
  obtain ⟨p, pl, rfl⟩ := List.exists_cons_of_ne_nil hp
  refine ⟨rfl, ?_⟩
  show (cumprodSkipna (onePlus (strategyReturns (a :: cl) (p :: pl)))).tail = _
  have hsr : strategyReturns (a :: cl) (p :: pl)
      = none :: List.zipWith optMul
          (List.zipWith (fun u _ => some u) (p :: pl) pl)
          (List.zipWith (fun x y => if x = 0 then none else some (y / x - 1)) (a :: cl) cl) := rfl
  rw [hsr]
  simp [cumprodSkipna, onePlus, cumprodGo]

/-- Witness for C3 at `Close = [100, 110]`, `Position = [5, 5]`. -/
theorem strategy_returns_first_bar_nan_skipped_w :
    (strategyReturns [100, 110] [5, 5]).getD 0 none = none ∧
    (cumulativeStrategyReturns [100, 110] [5, 5]).tail
      = (cumprodSkipna (onePlus (some 0 :: (strategyReturns [100, 110] [5, 5]).tail))).tail :=
  strategy_returns_first_bar_nan_skipped [100, 110] [5, 5] (by simp) (by simp)

/-- Counterexample to C4 as stated: with `Close = [100, 110]`,
`Position = [1, 1]`, `initial_capital = 1000`, the first
`Portfolio_Value` cell is NaN (`none`), not `1000`: the NaN in
`Strategy_Returns[0]` survives `cumprod` at index 0. -/
theorem portfolio_first_bar_cex :
    (Backtester.run [100, 110] [1, 1] 1000).portfolioValue.getD 0 none = none ∧
    (Backtester.run [100, 110] [1, 1] 1000).portfolioValue.getD 0 none ≠ some 1000 := by
  decide

/-- Amended C4: for every non-empty bar and position series, the first
`Portfolio_Value` cell is NaN (`none`), not `initial_capital` — the
first cumulative strategy return is NaN because `Strategy_Returns[0]`
is NaN. -/
theorem portfolio_value_first_bar_nan (closes pos : List ℚ) (c : ℚ)
    (hc : closes ≠ []) (hp : pos ≠ []) :
    (Backtester.run closes pos c).portfolioValue.getD 0 none = none := by
  obtain ⟨a, cl, rfl⟩ := List.exists_cons_of_ne_nil hc
  obtain ⟨p, pl, rfl⟩ := List.exists_cons_of_ne_nil hp
  rfl

/-- Witness for the amended C4 at `Close = [100, 110]`, `Position = [1, 0]`. -/
theorem portfolio_value_first_bar_nan_w :
    (Backtester.run [100, 110] [1, 0] 250).portfolioValue.getD 0 none = none :=
  portfolio_value_first_bar_nan [100, 110] [1, 0] 250 (by simp) (by simp)

-- buy-and-hold telescoping

theorem zipWith_fuse {α β γ₁ γ₂ δ : Type} (k : γ₁ → γ₂ → δ) (u : α → β → γ₁) (v : α → β → γ₂) :
    ∀ (X : List α) (Y : List β),
      List.zipWith k (List.zipWith u X Y) (List.zipWith v X Y)
        = List.zipWith (fun x y => k (u x y) (v x y)) X Y := by
  intro X
  induction X with
  | nil => intro Y; rfl
  | cons a X ih =>
      intro Y
      cases Y with
      | nil => rfl
      | cons b Y => simp [List.zipWith, ih]

theorem strategyReturns_buy_hold (a : ℚ) (l : List ℚ) :
    strategyReturns (a :: l) ((a :: l).map (fun _ => 1))
      = none :: List.zipWith
          (fun x y => optMul (some 1) (if x = 0 then none else some (y / x - 1))) (a :: l) l := by
  show List.zipWith optMul (shift1 ((a :: l).map (fun _ => 1))) (pctChange (a :: l)) = _
  have h1 : shift1 ((a :: l).map (fun _ => 1))
      = none :: List.zipWith (fun _ _ => some (1 : ℚ)) (a :: l) l := by
    show none :: List.zipWith (fun u _ => some u)
        ((a :: l).map (fun _ => 1)) ((a :: l).map (fun _ => (1 : ℚ))).tail = _
    rw [← List.map_tail]
    rw [List.zipWith_map]
    rfl
  rw [h1]
  show optMul none none :: List.zipWith optMul (List.zipWith (fun _ _ => some (1 : ℚ)) (a :: l) l)
      (List.zipWith (fun x y => if x = 0 then none else some (y / x - 1)) (a :: l) l) = _
  rw [zipWith_fuse]
  rfl

theorem cumprod_telescope :
    ∀ (l : List ℚ) (a acc : ℚ), a ≠ 0 → (∀ x ∈ l, x ≠ 0) →
      cumprodGo acc
          (List.zipWith
            (fun x y => Option.map (fun r => 1 + r) (optMul (some 1) (if x = 0 then none else some (y / x - 1))))
            (a :: l) l)
        = l.map (fun y => some (acc * (y / a))) := by
  intro l
  induction l with
  | nil => intro a acc _ _; rfl
  | cons b m ih =>
      intro a acc ha hl
      have hb : b ≠ 0 := hl b (by simp)
      have hm : ∀ x ∈ m, x ≠ 0 := fun x hx => hl x (by simp [hx])
      show cumprodGo acc
          ((Option.map (fun r => 1 + r) (optMul (some 1) (if a = 0 then none else some (b / a - 1)))) ::
            List.zipWith _ (b :: m) m) = _
      rw [if_neg ha]
      show cumprodGo acc (some (1 + 1 * (b / a - 1)) :: List.zipWith _ (b :: m) m) = _
      have hx : (1 : ℚ) + 1 * (b / a - 1) = b / a := by ring
      rw [hx]
      show some (acc * (b / a)) :: cumprodGo (acc * (b / a)) (List.zipWith _ (b :: m) m) = _
      rw [ih b (acc * (b / a)) hb hm]
      simp only [List.map_cons, List.cons.injEq, true_and]
      apply List.map_congr_left
      intro y _
      congr 1
      field_simp
      ring

theorem cumStrat_buy_hold (a : ℚ) (l : List ℚ) (ha : a ≠ 0) (hl : ∀ x ∈ l, x ≠ 0) :
    cumulativeStrategyReturns (a :: l) ((a :: l).map (fun _ => 1))
      = none :: l.map (fun y => some (y / a)) := by
  show cumprodSkipna (onePlus (strategyReturns (a :: l) ((a :: l).map (fun _ => 1)))) = _
  rw [strategyReturns_buy_hold]
  simp only [onePlus, List.map_cons, Option.map_none, List.map_zipWith]
  show none :: cumprodGo 1 _ = _
  rw [cumprod_telescope l a 1 ha hl]
  simp only [List.cons.injEq, true_and]
  apply List.map_congr_left
  intro y _
  rw [one_mul]

/-- Counterexample to C5 as stated: with `Close = [100, 120]`,
`initial_capital = 500` and the Buy-and-Hold position series, the
claimed identity fails at `t = 0`: the first `Portfolio_Value` cell
is NaN (`none`), not `500 × (Close[0]/Close[0]) = 500`. -/
theorem buy_hold_value_cex :
    (Backtester.run [100, 120] (BuyHoldStrategy.generateSignals [100, 120]) 500).portfolioValue.getD 0 none
        ≠ some (500 * (([100, 120] : List ℚ).getD 0 0 / ([100, 120] : List ℚ).getD 0 0)) ∧
    (Backtester.run [100, 120] (BuyHoldStrategy.generateSignals [100, 120]) 500).portfolioValue.getD 0 none
        = none := by
  decide

/-- Amended C5: with positive closes and the Buy-and-Hold position
series, `Portfolio_Value[t] = c × (Close[t]/Close[0])` holds at every
index `t ≥ 1` (at `t = 0` the cell is NaN, see C4). -/
theorem buy_hold_portfolio_identity (closes : List ℚ) (c : ℚ) (t : Nat)
    (hz : ∀ x ∈ closes, 0 < x) (ht : 1 ≤ t) (hlt : t < closes.length) :
    (Backtester.run closes (BuyHoldStrategy.generateSignals closes) c).portfolioValue.getD t none
      = some (c * (closes.getD t 0 / closes.getD 0 0)) := by
  cases closes with
  | nil => simp at hlt
  | cons a l =>
    obtain ⟨s, rfl⟩ : ∃ s, t = s + 1 := ⟨t - 1, by omega⟩
    have ha : a ≠ 0 := ne_of_gt (hz a (by simp))
    have hl : ∀ x ∈ l, x ≠ 0 := fun x hx => ne_of_gt (hz x (by simp [hx]))
    have hs : s < l.length := by simp at hlt; omega
    show ((cumulativeStrategyReturns (a :: l) (BuyHoldStrategy.generateSignals (a :: l))).map
        (Option.map (fun x => c * x))).getD (s + 1) none = _
    have hbh : BuyHoldStrategy.generateSignals (a :: l) = (a :: l).map (fun _ => 1) := rfl
    rw [hbh, cumStrat_buy_hold a l ha hl]
    simp only [List.map_cons, Option.map_none, List.getD_cons_succ, List.map_map]
    rw [getD_eq_get _ _ _ (by simpa using hs), getD_eq_get _ _ _ hs]
    simp

/-- Witness for the amended C5 at `Close = [100, 120]`, `c = 500`, `t = 1`. -/
theorem buy_hold_portfolio_identity_w :
    (Backtester.run [100, 120] (BuyHoldStrategy.generateSignals [100, 120]) 500).portfolioValue.getD 1 none
      = some (500 * (([100, 120] : List ℚ).getD 1 0 / ([100, 120] : List ℚ).getD 0 0)) :=
  buy_hold_portfolio_identity [100, 120] 500 1 (by decide) (by omega) (by simp)

-- trade extraction (Backtester.get_trades, backtester.py lines 69-107)

/-- A completed trade record (entry/exit date modelled by bar index). -/
structure Trade where
  entryIdx : Nat
  exitIdx : Nat
  entryPrice : ℚ
  exitPrice : ℚ
  ret : ℚ
deriving DecidableEq

/-- The loop of `Backtester.get_trades`: `prev` is the previous
`Position` value (so `p - prev` is `Position.diff()` at the current
row), `entry` the pending `(entry_idx, entry_price)` pair, `i` the
current row index. -/
def getTradesGo (closes : List ℚ) (prev : ℚ) (entry : Option (Nat × ℚ)) (i : Nat) :
    List ℚ → List Trade
  | [] => []
  | p :: rest =>
      if p - prev = 1 then
        getTradesGo closes p (some (i, closes.getD i 0)) (i + 1) rest
      else if p - prev = -1 then
        match entry with
        | some (e, ep) =>
            { entryIdx := e, exitIdx := i, entryPrice := ep,
              exitPrice := closes.getD i 0,
              ret := (closes.getD i 0 - ep) / ep } :: getTradesGo closes p none (i + 1) rest
        | none => getTradesGo closes p none (i + 1) rest
      else getTradesGo closes p entry (i + 1) rest

/-- `Backtester.get_trades`: the diff at row 0 is NaN, so the scan
starts at row 1 with no pending entry. -/
def getTrades (closes pos : List ℚ) : List Trade :=
  match pos with
  | [] => []
  | p :: rest => getTradesGo closes p none 1 rest

/-- Spec-side predicate: the remaining series (whose previous value is
`prev`) contains a 1→0 transition. -/
def hasExit (prev : ℚ) : List ℚ → Bool
  | [] => false
  | p :: rest => (prev = 1 ∧ p = 0 : Prop) || hasExit p rest

/-- Spec-side list of the indices of 0→1 transitions that are followed
by a later 1→0 transition. -/
def matchedGo (prev : ℚ) (i : Nat) : List ℚ → List Nat
  | [] => []
  | p :: rest =>
      if prev = 0 ∧ p = 1 ∧ hasExit p rest then i :: matchedGo p (i + 1) rest
      else matchedGo p (i + 1) rest

/-- Indices of the 0→1 transitions of a position series that are
followed by a later 1→0 transition. -/
def matchedEntries (pos : List ℚ) : List Nat :=
  match pos with
  | [] => []
  | p :: rest => matchedGo p 1 rest

theorem tradesGo_spec (closes : List ℚ) :
    ∀ (rest : List ℚ) (prev : ℚ) (i : Nat),
      (prev = 0 ∨ prev = 1) → (∀ x ∈ rest, x = 0 ∨ x = 1) →
      ((getTradesGo closes prev none i rest).map Trade.entryIdx = matchedGo prev i rest)
      ∧ (∀ e ep, prev = 1 →
          (getTradesGo closes prev (some (e, ep)) i rest).map Trade.entryIdx
            = if hasExit prev rest then e :: matchedGo prev i rest else matchedGo prev i rest) := by
  intro rest
  induction rest with
  | nil =>
      intro prev i _ _
      constructor
      · rfl
      · intro e ep _
        simp [getTradesGo, matchedGo, hasExit]
  | cons p r ih =>
      intro prev i hprev hall
      have hp : p = 0 ∨ p = 1 := hall p (by simp)
      have hr : ∀ x ∈ r, x = 0 ∨ x = 1 := fun x hx => hall x (by simp [hx])
      constructor
      · rcases hprev with h0 | h1
        · rcases hp with hp0 | hp1
          · subst h0; subst hp0
            rw [show getTradesGo closes 0 none i ((0 : ℚ) :: r)
                  = getTradesGo closes 0 none (i + 1) r by
                simp [getTradesGo]]
            rw [(ih 0 (i + 1) (Or.inl rfl) hr).1]
            simp [matchedGo]
          · subst h0; subst hp1
            rw [show getTradesGo closes 0 none i ((1 : ℚ) :: r)
                  = getTradesGo closes 1 (some (i, closes.getD i 0)) (i + 1) r by
                simp [getTradesGo]]
            rw [(ih 1 (i + 1) (Or.inr rfl) hr).2 i (closes.getD i 0) rfl]
            simp only [matchedGo, hasExit]
            by_cases hex : hasExit 1 r
            · simp [hex]
            · simp [hex]
        · rcases hp with hp0 | hp1
          · subst h1; subst hp0
            rw [show getTradesGo closes 1 none i ((0 : ℚ) :: r)
                  = getTradesGo closes 0 none (i + 1) r by
                norm_num [getTradesGo]]
            rw [(ih 0 (i + 1) (Or.inl rfl) hr).1]
            simp [matchedGo]
          · subst h1; subst hp1
            rw [show getTradesGo closes 1 none i ((1 : ℚ) :: r)
                  = getTradesGo closes 1 none (i + 1) r by
                norm_num [getTradesGo]]
            rw [(ih 1 (i + 1) (Or.inr rfl) hr).1]
            simp [matchedGo]
      · intro e ep h1
        subst h1
        rcases hp with hp0 | hp1
        · subst hp0
          rw [show getTradesGo closes 1 (some (e, ep)) i ((0 : ℚ) :: r)
                = { entryIdx := e, exitIdx := i, entryPrice := ep,
                    exitPrice := closes.getD i 0,
                    ret := (closes.getD i 0 - ep) / ep } :: getTradesGo closes 0 none (i + 1) r by
              norm_num [getTradesGo]]
          rw [List.map_cons, (ih 0 (i + 1) (Or.inl rfl) hr).1]
          have hex : hasExit 1 ((0 : ℚ) :: r) = true := by
            simp [hasExit]
          rw [if_pos hex]
          simp [matchedGo]
        · subst hp1
          rw [show getTradesGo closes 1 (some (e, ep)) i ((1 : ℚ) :: r)
                = getTradesGo closes 1 (some (e, ep)) (i + 1) r by
              norm_num [getTradesGo]]
          rw [(ih 1 (i + 1) (Or.inr rfl) hr).2 e ep rfl]
          have hex : hasExit 1 ((1 : ℚ) :: r) = hasExit 1 r := by
            simp [hasExit]
          rw [hex]
          simp only [matchedGo]
          norm_num

theorem matchedGo_ge :
    ∀ (rest : List ℚ) (prev : ℚ) (i : Nat), ∀ x ∈ matchedGo prev i rest, i ≤ x := by
  intro rest
  induction rest with
  | nil => intro prev i x hx; simp [matchedGo] at hx
  | cons p r ih =>
      intro prev i x hx
      simp only [matchedGo] at hx
      by_cases hc : prev = 0 ∧ p = 1 ∧ hasExit p r
      · rw [if_pos hc] at hx
        rcases List.mem_cons.mp hx with rfl | hx'
        · exact le_refl x
        · exact le_trans (by omega) (ih p (i + 1) x hx')
      · rw [if_neg hc] at hx
        exact le_trans (by omega) (ih p (i + 1) x hx)

theorem matchedGo_chain :
    ∀ (rest : List ℚ) (prev : ℚ) (i : Nat), List.Chain' (· < ·) (matchedGo prev i rest) := by
  intro rest
  induction rest with
  | nil => intro prev i; simp [matchedGo]
  | cons p r ih =>
      intro prev i
      simp only [matchedGo]
      by_cases hc : prev = 0 ∧ p = 1 ∧ hasExit p r
      · rw [if_pos hc]
        rw [List.chain'_cons']
        refine ⟨?_, ih p (i + 1)⟩
        intro b hb
        have hmem : b ∈ matchedGo p (i + 1) r := List.mem_of_mem_head? hb
        have := matchedGo_ge r p (i + 1) b hmem
        omega
      · rw [if_neg hc]
        exact ih p (i + 1)

/-- Claim C6: over a {0,1}-valued position series, `get_trades` emits
exactly one record per 0→1 transition that is followed by a later 1→0
transition (entries with no later exit are dropped), and the records
are in chronological order of their entry indices. -/
theorem get_trades_matched_entries (closes pos : List ℚ)
    (h : ∀ x ∈ pos, x = 0 ∨ x = 1) :
    (getTrades closes pos).map Trade.entryIdx = matchedEntries pos ∧
    List.Chain' (· < ·) ((getTrades closes pos).map Trade.entryIdx) := by
  cases pos with
  | nil => exact ⟨rfl, by simp [getTrades]⟩
  | cons p rest =>
      have hp : p = 0 ∨ p = 1 := h p (by simp)
      have hr : ∀ x ∈ rest, x = 0 ∨ x = 1 := fun x hx => h x (by simp [hx])
      have hspec := (tradesGo_spec closes rest p 1 hp hr).1
      refine ⟨hspec, ?_⟩
      show List.Chain' (· < ·) ((getTradesGo closes p none 1 rest).map Trade.entryIdx)
      rw [hspec]
      exact matchedGo_chain rest p 1

/-- Witness for C6: `Position = [0, 1, 1, 0, 1]` over
`Close = [10, 11, 12, 13, 14]` — the entry at index 1 is matched by the
exit at index 3; the re-entry at index 4 has no exit and is dropped. -/
theorem get_trades_matched_entries_w :
    (getTrades [10, 11, 12, 13, 14] [0, 1, 1, 0, 1]).map Trade.entryIdx
        = matchedEntries [0, 1, 1, 0, 1] ∧
    List.Chain' (· < ·) ((getTrades [10, 11, 12, 13, 14] [0, 1, 1, 0, 1]).map Trade.entryIdx) :=
  get_trades_matched_entries [10, 11, 12, 13, 14] [0, 1, 1, 0, 1] (by decide)

-- RSI strategy (src/strategies/momentum.py, RSIStrategy)

/-- `Close.diff()`: NaN at index 0, then consecutive differences. -/
def diffO (c : List ℚ) : OSeries :=
  match c with
  | [] => []
  | _ :: _ => none :: List.zipWith (fun a b => some (b - a)) c c.tail

/-- `delta.where(delta > 0, 0)`: the NaN at index 0 compares as False
and is replaced by the literal 0. -/
def gains (c : List ℚ) : List ℚ :=
  (diffO c).map (fun d => match d with
    | none => 0
    | some x => if 0 < x then x else 0)

/-- `(-delta.where(delta < 0, 0))`. -/
def losses (c : List ℚ) : List ℚ :=
  (diffO c).map (fun d => match d with
    | none => 0
    | some x => if x < 0 then -x else 0)

/-- `Series.rolling(window=w).mean()`: NaN until a full window is
available, then the mean of the trailing `w` entries. -/
def rollingMean (w : Nat) (xs : List ℚ) : OSeries :=
  (List.range xs.length).map (fun t =>
    if t + 1 < w then none
    else some (((xs.take (t + 1)).drop (t + 1 - w)).sum / (w : ℚ)))

/-- `rs = gain / loss; rsi = 100 - 100/(1 + rs)` under IEEE float
semantics: a positive gain over a zero loss gives `rs = +inf` and
`rsi = 100`; `0/0` is NaN; NaN windows propagate. -/
def rsiList (c : List ℚ) (period : Nat) : OSeries :=
  List.zipWith
    (fun og ol => match og, ol with
      | some g, some l =>
          if l = 0 then (if 0 < g then some 100 else none)
          else some (100 - 100 / (1 + g / l))
      | _, _ => none)
    (rollingMean period (gains c)) (rollingMean period (losses c))

/-- The raw `Position` column after the two `.loc` assignments
(momentum.py lines 93–99); a NaN RSI compares as False in both. -/
def rsiRawPositions (c : List ℚ) (period : Nat) (oversold overbought : ℚ) : List ℚ :=
  (rsiList c period).map (fun r => match r with
    | none => 0
    | some v => if overbought < v then 0 else if v < oversold then 1 else 0)

/-- `Series.replace(0, np.nan)`. -/
def replaceZeroNone (xs : List ℚ) : OSeries :=
  xs.map (fun x => if x = 0 then none else some x)

/-- The forward-fill scan carrying the most recent non-NaN value. -/
def ffillGo (prev : Option ℚ) : OSeries → OSeries
  | [] => []
  | none :: rest => prev :: ffillGo prev rest
  | some x :: rest => some x :: ffillGo (some x) rest

/-- `Series.fillna(method=ffill)`. -/
def ffill (xs : OSeries) : OSeries := ffillGo none xs

/-- `Series.fillna(0)`. -/
def fillna0 (xs : OSeries) : List ℚ :=
  xs.map (fun x => x.getD 0)

/-- `RSIStrategy.generate_signals` (momentum.py line 101):
`Position.replace(0, nan).fillna(ffill).fillna(0)`. -/
def RSIStrategy.generateSignals (c : List ℚ) (period : Nat) (oversold overbought : ℚ) : List ℚ :=
  fillna0 (ffill (replaceZeroNone (rsiRawPositions c period oversold overbought)))

theorem length_rollingMean (w : Nat) (xs : List ℚ) :
    (rollingMean w xs).length = xs.length := by
  simp [rollingMean]

theorem length_gains (c : List ℚ) : (gains c).length = c.length := by
  cases c with
  | nil => rfl
  | cons a l => simp [gains, diffO]

theorem length_losses (c : List ℚ) : (losses c).length = c.length := by
  cases c with
  | nil => rfl
  | cons a l => simp [losses, diffO]

/-- C2 evidence: on `Close = [10, 9, 8, 10, 12]` with `period = 2`,
`oversold = 30`, `overbought = 70`, the RSI at the final bar is exactly
100 (above the overbought threshold), yet the emitted position stays 1
instead of transitioning to 0: `replace(0, nan)` turns the overbought
exit zeros into NaN before the forward fill, which then carries the
previous 1 over them. -/
theorem rsi_exit_signal_erased :
    RSIStrategy.generateSignals [10, 9, 8, 10, 12] 2 30 70 = [0, 1, 1, 1, 1] ∧
    (rsiList [10, 9, 8, 10, 12] 2).getD 4 none = some 100 ∧
    (70 : ℚ) < 100 := by
  refine ⟨?_, ?_, by norm_num⟩
  · norm_num [RSIStrategy.generateSignals, fillna0, ffill, ffillGo, replaceZeroNone,
      rsiRawPositions, rsiList, rollingMean, gains, losses, diffO, List.range_succ]
  · norm_num [rsiList, rollingMean, gains, losses, diffO, List.range_succ]

/-- Claim C9: whenever the rolling average loss over a full window is 0
and the rolling average gain is strictly positive, the RSI value at
that bar is exactly 100 (not NaN). -/
theorem rsi_saturates_at_100 (c : List ℚ) (period t : Nat) (g : ℚ)
    (hg : (rollingMean period (gains c)).getD t none = some g)
    (hgpos : 0 < g)
    (hl : (rollingMean period (losses c)).getD t none = some 0) :
    (rsiList c period).getD t none = some 100 := by
  have hG : t < (rollingMean period (gains c)).length := by
    by_contra hc
    push_neg at hc
    rw [List.getD_eq_default _ _ hc] at hg
    simp at hg
  have hL : t < (rollingMean period (losses c)).length := by
    rw [length_rollingMean, length_losses]
    rw [length_rollingMean, length_gains] at hG
    exact hG
  have hzw : t < (List.zipWith
      (fun og ol => match og, ol with
        | some g, some l =>
            if l = 0 then (if 0 < g then some 100 else none)
            else some (100 - 100 / (1 + g / l))
        | _, _ => none)
      (rollingMean period (gains c)) (rollingMean period (losses c))).length := by
    rw [List.length_zipWith]
    omega
  rw [getD_eq_get _ _ _ hG] at hg
  rw [getD_eq_get _ _ _ hL] at hl
  show (List.zipWith _ (rollingMean period (gains c)) (rollingMean period (losses c))).getD t none = _
  rw [getD_eq_get _ _ _ hzw]
  simp only [List.get_eq_getElem, List.getElem_zipWith]
  simp only [List.get_eq_getElem] at hg hl
  rw [hg, hl]
  simp [hgpos]

/-- Witness for C9 at `Close = [1, 2, 3]`, `period = 2`, `t = 2`,
average gain 1, average loss 0. -/
theorem rsi_saturates_at_100_w :
    (rsiList [1, 2, 3] 2).getD 2 none = some 100 :=
  rsi_saturates_at_100 [1, 2, 3] 2 2 1
    (by norm_num [rollingMean, gains, diffO, List.range_succ])
    (by norm_num)
    (by norm_num [rollingMean, losses, diffO, List.range_succ])

/-- Counterexample to C8 as stated: `Backtester.__init__` performs no
validation, so a run with `initial_capital = -100` silently produces a
fully populated result table instead of failing. -/
theorem no_capital_validation_cex :
    (-100 : ℚ) ≤ 0 ∧
    (Backtester.run [100, 110] [1, 1] (-100)).portfolioValue = [none, some (-110)] := by
  refine ⟨by norm_num, ?_⟩
  norm_num [Backtester.run, cumulativeStrategyReturns, cumprodSkipna, cumprodGo,
    onePlus, strategyReturns, shift1, pctChange, optMul]

/-- Amended C8: a non-positive `initial_capital` is accepted without
any check; the run still returns a result aligned index-for-index
with the input bars. -/
theorem run_accepts_nonpositive_capital (closes pos : List ℚ) (c : ℚ)
    (hc : c ≤ 0) (hlen : pos.length = closes.length) :
    (Backtester.run closes pos c).portfolioValue.length = closes.length ∧
    (Backtester.run closes pos c).rets.length = closes.length := by
  constructor
  · show ((cumulativeStrategyReturns closes pos).map _).length = _
    rw [List.length_map]
    exact length_cumulativeStrategyReturns closes pos hlen
  · exact length_pctChange closes

/-- Witness for the amended C8 at `initial_capital = -5`. -/
theorem run_accepts_nonpositive_capital_w :
    (Backtester.run [100, 110] [1, 1] (-5)).portfolioValue.length = ([100, 110] : List ℚ).length ∧
    (Backtester.run [100, 110] [1, 1] (-5)).rets.length = ([100, 110] : List ℚ).length :=
  run_accepts_nonpositive_capital [100, 110] [1, 1] (-5) (by norm_num) (by simp)

-- metrics module (src/utils/metrics.py), over ℝ because of the square roots

/-- `calculate_returns`: `prices.pct_change().dropna()` — the leading
NaN is dropped, leaving the consecutive ratios minus one. -/
noncomputable def calculate_returns (prices : List ℝ) : List ℝ :=
  List.zipWith (fun a b => b / a - 1) prices prices.tail

/-- Running product scan. -/
noncomputable def cumprodR (acc : ℝ) : List ℝ → List ℝ
  | [] => []
  | x :: r => (acc * x) :: cumprodR (acc * x) r

/-- `calculate_cumulative_returns`: `(1 + returns).cumprod()`. -/
noncomputable def calculate_cumulative_returns (rets : List ℝ) : List ℝ :=
  cumprodR 1 (rets.map (fun r => 1 + r))

/-- `Series.mean()`. -/
noncomputable def meanR (xs : List ℝ) : ℝ := xs.sum / xs.length

/-- `Series.std()` (sample standard deviation, `ddof = 1`). -/
noncomputable def stdR (xs : List ℝ) : ℝ :=
  Real.sqrt ((xs.map (fun x => (x - meanR xs) ^ 2)).sum / ((xs.length : ℝ) - 1))

/-- `Series.min()` of a (non-empty) series; 0 on empty input. -/
noncomputable def minList (xs : List ℝ) : ℝ :=
  match xs with
  | [] => 0
  | x :: r => r.foldl min x

/-- `Series.max()` of a (non-empty) series; 0 on empty input. -/
noncomputable def maxList (xs : List ℝ) : ℝ :=
  match xs with
  | [] => 0
  | x :: r => r.foldl max x

/-- `Series.expanding().max()`. -/
noncomputable def runningMaxGo (m : ℝ) : List ℝ → List ℝ
  | [] => []
  | x :: r => (max m x) :: runningMaxGo (max m x) r

noncomputable def runningMax (xs : List ℝ) : List ℝ :=
  match xs with
  | [] => []
  | x :: r => x :: runningMaxGo x r

/-- `calculate_sharpe` (metrics.py lines 19–38). -/
noncomputable def calculate_sharpe (rets : List ℝ) (riskFreeRate : ℝ) (periodsPerYear : Nat) : ℝ :=
  if rets.length = 0 then 0
  else
    let excess := rets.map (fun r => r - riskFreeRate / periodsPerYear)
    if stdR excess = 0 then 0
    else Real.sqrt periodsPerYear * meanR excess / stdR excess

/-- `calculate_max_drawdown` (metrics.py lines 41–56). -/
noncomputable def calculate_max_drawdown (cumRets : List ℝ) : ℝ :=
  if cumRets.length = 0 then 0
  else minList (List.zipWith (fun cv rm => (cv - rm) / rm) cumRets (runningMax cumRets)) * 100

/-- `calculate_volatility` (metrics.py lines 59–72). -/
noncomputable def calculate_volatility (rets : List ℝ) (periodsPerYear : Nat) : ℝ :=
  if rets.length = 0 then 0
  else stdR rets * Real.sqrt periodsPerYear * 100

/-- `calculate_sortino` (metrics.py lines 75–97). -/
noncomputable def calculate_sortino (rets : List ℝ) (riskFreeRate : ℝ) (periodsPerYear : Nat) : ℝ :=
  if rets.length = 0 then 0
  else
    let excess := rets.map (fun r => r - riskFreeRate / periodsPerYear)
    let downside := excess.filter (fun r => r < 0)
    if downside.length = 0 ∨ stdR downside = 0 then 0
    else Real.sqrt periodsPerYear * meanR excess / stdR downside

/-- `calculate_calmar` (metrics.py lines 100–119). -/
noncomputable def calculate_calmar (rets cumRets : List ℝ) : ℝ :=
  if rets.length = 0 then 0
  else
    let annualReturn := meanR rets * 252 * 100
    let maxDd := |calculate_max_drawdown cumRets|
    if maxDd = 0 then 0 else annualReturn / maxDd

/-- `calculate_win_rate` (metrics.py lines 122–127). -/
noncomputable def calculate_win_rate (rets : List ℝ) : ℝ :=
  if rets.length = 0 then 0
  else ((rets.filter (fun r => 0 < r)).length : ℝ) / rets.length * 100

/-- Python `round(x, 2)` (modelled with half-up integer rounding;
the claims below do not depend on the tie-breaking rule). -/
noncomputable def roundTo2 (x : ℝ) : ℝ := (round (x * 100) : ℤ) / 100

/-- The mapping returned by `generate_performance_summary`. -/
structure MetricsSummary where
  totalReturn : ℝ
  annualizedReturn : ℝ
  volatility : ℝ
  sharpe : ℝ
  sortino : ℝ
  maxDrawdown : ℝ
  calmar : ℝ
  winRate : ℝ
  bestDay : ℝ
  worstDay : ℝ

/-- `cum_returns.iloc[-1]` guarded by a non-emptiness check. -/
noncomputable def lastD (xs : List ℝ) : ℝ := xs.getLastD 0

/-- `generate_performance_summary` (metrics.py lines 134–166): derives
returns from prices, overrides them with `strategy_returns` when that
argument is not None, then computes the ten metrics. -/
noncomputable def generate_performance_summary (prices : List ℝ)
    (strategyRets : Option (List ℝ)) : MetricsSummary :=
  let returns0 := calculate_returns prices
  let cum0 := calculate_cumulative_returns returns0
  let rets := match strategyRets with
    | some r => r
    | none => returns0
  let cumRets := match strategyRets with
    | some r => calculate_cumulative_returns r
    | none => cum0
  { totalReturn := if 0 < cumRets.length then roundTo2 ((lastD cumRets - 1) * 100) else 0
    annualizedReturn := if 0 < rets.length then roundTo2 (meanR rets * 252 * 100) else 0
    volatility := roundTo2 (calculate_volatility rets 252)
    sharpe := roundTo2 (calculate_sharpe rets (2 / 100) 252)
    sortino := roundTo2 (calculate_sortino rets (2 / 100) 252)
    maxDrawdown := roundTo2 (calculate_max_drawdown cumRets)
    calmar := roundTo2 (calculate_calmar rets cumRets)
    winRate := roundTo2 (calculate_win_rate rets)
    bestDay := if 0 < rets.length then roundTo2 (maxList rets * 100) else 0
    worstDay := if 0 < rets.length then roundTo2 (minList rets * 100) else 0 }

/-- Claim C7: on an empty return series every numeric metric of the
summary is 0 and no error is raised — both when an empty
`strategy_returns` series is supplied and when an empty price series
makes the derived returns empty. -/
theorem empty_returns_all_metrics_zero :
    (∀ prices : List ℝ,
      generate_performance_summary prices (some []) = ⟨0, 0, 0, 0, 0, 0, 0, 0, 0, 0⟩) ∧
    generate_performance_summary [] none = ⟨0, 0, 0, 0, 0, 0, 0, 0, 0, 0⟩ := by
  constructor
  · intro prices
    simp [generate_performance_summary, calculate_cumulative_returns, cumprodR,
      calculate_volatility, calculate_sharpe, calculate_sortino,
      calculate_max_drawdown, calculate_calmar, calculate_win_rate,
      roundTo2, maxList, minList, lastD, meanR]
  · simp [generate_performance_summary, calculate_returns, calculate_cumulative_returns,
      cumprodR, calculate_volatility, calculate_sharpe, calculate_sortino,
      calculate_max_drawdown, calculate_calmar, calculate_win_rate,
      roundTo2, maxList, minList, lastD, meanR]

/-- Claim C10: when a strategy return series is supplied, the summary
is a function of that series alone — any two (non-empty) price series
paired with the same `strategy_returns` give identical metrics. -/
theorem summary_depends_only_on_strategy_returns (p1 p2 rs : List ℝ)
    (h1 : p1 ≠ []) (h2 : p2 ≠ []) :
    generate_performance_summary p1 (some rs) = generate_performance_summary p2 (some rs) := rfl

/-- Witness for C10 with two distinct non-empty price series. -/
theorem summary_depends_only_on_strategy_returns_w :
    generate_performance_summary [1] (some [1 / 10])
      = generate_performance_summary [2] (some [1 / 10]) :=
  summary_depends_only_on_strategy_returns [1] [2] [1 / 10] (by simp) (by simp)
